import Mathlib

/-!
Shallow embedding of the deep-novelist repository
(`src/ollama_connection.py`, `src/novel_generator.py`) and proofs of the
behavioural claims about it.

HTTP traffic is modelled by an `HttpResult` value describing what the
`requests.get` call produced (a transport exception, or a status code
together with the outcome of parsing the body as JSON); the Ollama client
is modelled by a function from (model, prompt) to an outcome.  Python
strings are modelled as `List Char` for the character-level operations
(`find`, `rfind`, `strip`, `splitlines`) and as Lean `String` elsewhere.
-/

/-- A JSON value as produced by `response.json()`. -/
inductive Json where
  | null : Json
  | bool (b : Bool) : Json
  | num (n : Int) : Json
  | str (s : String) : Json
  | arr (elems : List Json) : Json
  | obj (fields : List (String × Json)) : Json

/-- Python `s in l` for a string `s` and a list `l` of decoded JSON
values: a Python string compares equal only to an equal string, so the
membership test finds exactly the equal string elements. -/
def pyStrMem (s : String) : List Json → Bool
  | [] => false
  | .str t :: rest => t == s || pyStrMem s rest
  | _ :: rest => pyStrMem s rest

/-- Python truthiness of a JSON-decoded value (`if model.get("name")`). -/
def Json.truthy : Json → Bool
  | .null => false
  | .bool b => b
  | .num n => n != 0
  | .str s => s != ""
  | .arr [] => false
  | .arr (_ :: _) => true
  | .obj [] => false
  | .obj (_ :: _) => true

/-- `d.get(key)` on a decoded JSON object (dictionary). -/
def Json.get (fields : List (String × Json)) (key : String) : Option Json :=
  (fields.find? (fun p => p.1 == key)).map Prod.snd

/-- Outcome of one `requests.get(...)` call: either the call raised
(timeout or transport error), or it returned a response with a status
code whose body parses to a JSON value or raises a parse error. -/
inductive HttpResult where
  | exn (msg : String) : HttpResult
  | resp (status : Nat) (body : Except String Json) : HttpResult

/-- `check_server_availability` from `src/ollama_connection.py`:
`requests.get(f"{base_url}/api/version", timeout=5)` inside
`try: ... return response.status_code == 200 / except: return False`. -/
def check_server_availability (r : HttpResult) : Bool :=
  match r with
  | .exn _ => false
  | .resp status _ => status == 200

/-- `get_server_url` from `src/ollama_connection.py`: `if ip:` is Python
truthiness, so `None` and `""` both fall through to the default. -/
def get_server_url (ip : Option String) : String :=
  match ip with
  | some h => if h != "" then "http://" ++ h ++ ":11434" else "http://localhost:11434"
  | none => "http://localhost:11434"

/-- The list comprehension
`[model.get("name", "") for model in data if model.get("name")]`:
raises (`AttributeError`) when an entry is not a dictionary, otherwise
keeps, in order, the truthy `name` fields. -/
def extractNames : List Json → Except String (List Json)
  | [] => .ok []
  | .obj fields :: rest => do
      let tail ← extractNames rest
      match Json.get fields "name" with
      | some v => if v.truthy then pure (v :: tail) else pure tail
      | none => pure tail
  | _ :: _ => .error "AttributeError"

/-- `get_available_models` from `src/ollama_connection.py`, over the
modelled outcome of `requests.get(f"{base_url}/api/tags", timeout=5)`.
Every exception path (transport, JSON parse, bad entry shape) is caught
and yields `[]`; a non-200 status or an unexpected body shape also
yields `[]`. -/
def get_available_models (r : HttpResult) : List Json :=
  match r with
  | .exn _ => []
  | .resp status body =>
    if status == 200 then
      match body with
      | .error _ => []
      | .ok data =>
        match data with
        | .arr entries =>
          (match extractNames entries with
           | .ok names => names
           | .error _ => [])
        | .obj fields =>
          (match Json.get fields "models" with
           | some (.arr entries) =>
             (match extractNames entries with
              | .ok names => names
              | .error _ => [])
           | some _ => []
           | none => [])
        | _ => []
    else []

section CleanText

/-- The whitespace characters stripped by Python `str.strip()`
(restricted to the ASCII/latin-1 range that can occur here). -/
def isPySpace (c : Char) : Bool :=
  c == ' ' || c == '\t' || c == '\n' || c == '\x0d' || c == '\x0b' ||
  c == '\x0c' || c == '\x1c' || c == '\x1d' || c == '\x1e' ||
  c == '\x1f' || c == '\x85' || c == Char.ofNat 0x2028 || c == Char.ofNat 0x2029

/-- The line-boundary characters of Python `str.splitlines()`
(besides the two-character boundary `"\r\n"`). -/
def isLineBreak (c : Char) : Bool :=
  c == '\n' || c == '\x0d' || c == '\x0b' || c == '\x0c' ||
  c == '\x1c' || c == '\x1d' || c == '\x1e' || c == '\x85' ||
  c == Char.ofNat 0x2028 || c == Char.ofNat 0x2029

/-- Python `str.lstrip()`. -/
def pyLstrip (cs : List Char) : List Char := cs.dropWhile isPySpace

/-- Python `str.rstrip()`. -/
def pyRstrip (cs : List Char) : List Char := (cs.reverse.dropWhile isPySpace).reverse

/-- Python `str.strip()`. -/
def pyStrip (cs : List Char) : List Char := pyLstrip (pyRstrip cs)

/-- Helper for `pySplitlines`: `acc` holds the current line, reversed;
the two-character boundary `"\r\n"` ends a single line, and a boundary
at the very end of the text does not open a further line. -/
def pySplitlinesAux : List Char → List Char → List (List Char)
  | [], acc => [acc.reverse]
  | c :: rest, acc =>
    if isLineBreak c then
      if c == '\x0d' && rest.head? == some '\n' then
        match rest with
        | [] => [acc.reverse]
        | _ :: rest2 =>
            acc.reverse :: (match rest2 with
              | [] => []
              | _ :: _ => pySplitlinesAux rest2 [])
      else
        acc.reverse :: (match rest with
          | [] => []
          | _ :: _ => pySplitlinesAux rest [])
    else
      pySplitlinesAux rest (c :: acc)

/-- Python `str.splitlines()`. -/
def pySplitlines (cs : List Char) : List (List Char) :=
  match cs with
  | [] => []
  | _ :: _ => pySplitlinesAux cs []

/-- First index at which `needle` occurs in the haystack
(Python `str.find`), counting from `i`. -/
def subFindAux (needle : List Char) : List Char → Nat → Option Nat
  | [], i => if needle.isPrefixOf [] then some i else none
  | c :: t, i =>
    if needle.isPrefixOf (c :: t) then some i else subFindAux needle t (i + 1)

/-- Python `haystack.find(needle)` (`none` for `-1`). -/
def subFind (haystack needle : List Char) : Option Nat :=
  subFindAux needle haystack 0

/-- Python `haystack.find(needle, start)`. -/
def subFindFrom (haystack needle : List Char) (start : Nat) : Option Nat :=
  (subFind (haystack.drop start) needle).map (· + start)

/-- Helper for `subRfind`, keeping the last match seen so far. -/
def subRfindAux (needle : List Char) : List Char → Nat → Option Nat → Option Nat
  | [], i, best => if needle.isPrefixOf [] then some i else best
  | c :: t, i, best =>
    subRfindAux needle t (i + 1) (if needle.isPrefixOf (c :: t) then some i else best)

/-- Python `haystack.rfind(needle)` (`none` for `-1`). -/
def subRfind (haystack needle : List Char) : Option Nat :=
  subRfindAux needle haystack 0 none

/-- The three-backquote code-fence marker. -/
def fence : List Char := [Char.ofNat 96, Char.ofNat 96, Char.ofNat 96]

/-- Python `"\n".join(lines)`. -/
def joinNl : List (List Char) → List Char
  | [] => []
  | [l] => l
  | l :: ls => l ++ '\n' :: joinNl ls

/-- The lines of a text delimited by the newline character (used to
state the per-line property; `"a\nb"` has lines `a` and `b`, and the
empty text has the single empty line). -/
def splitOnNl : List Char → List (List Char)
  | [] => [[]]
  | c :: rest =>
    if c == '\n' then [] :: splitOnNl rest
    else
      match splitOnNl rest with
      | l :: ls => (c :: l) :: ls
      | [] => [[c]]

/-- The whitespace-normalisation tail of `clean_text`:
`text.strip()`, then strip every line of `text.splitlines()` and join
the lines with `"\n"`. -/
def stripLines (cs : List Char) : List Char :=
  joinNl ((pySplitlines (pyStrip cs)).map pyStrip)

/-- `clean_text` from `src/novel_generator.py`, on character lists.
If the text contains a code-fence marker, it drops everything up to and
including the first newline after the first marker, then truncates at
the last marker; then it strips the whole text and each line. -/
def cleanTextL (cs : List Char) : List Char :=
  let text :=
    match subFind cs fence with
    | some start =>
      let text1 :=
        match subFindFrom cs ['\n'] start with
        | some nn => cs.drop (nn + 1)
        | none => cs
      (match subRfind text1 fence with
       | some e => text1.take e
       | none => text1)
    | none => cs
  stripLines text

/-- `clean_text` on Lean strings. -/
def clean_text (s : String) : String := ⟨cleanTextL s.data⟩

end CleanText

/-- The single-quote character, used in the invalid-model message. -/
def squote : String := String.mk [Char.ofNat 39]

/-- Exceptions that the modelled code can raise, tagged by Python class. -/
inductive PyError where
  | valueError (msg : String) : PyError
  | connectionError (msg : String) : PyError
  | other (msg : String) : PyError

/-- `str(e)` for a modelled exception. -/
def PyError.msg : PyError → String
  | .valueError m => m
  | .connectionError m => m
  | .other m => m

/-- Outcome of `self.client.generate(model=..., prompt=..., stream=False)`
followed by the `response["response"]` access: either the response text,
or a raised exception. -/
inductive ClientOutcome where
  | ok (response : String) : ClientOutcome
  | raise (msg : String) : ClientOutcome

/-- The behaviour of the external Ollama client: what the `generate`
call produces for a given model and prompt. -/
def OllamaClient := String → String → ClientOutcome

/-- The state of `NovelGenerator` after `__init__` succeeds. -/
structure NovelGenerator where
  models : List Json

/-- `NovelGenerator.__init__` from `src/novel_generator.py`:
raises `ConnectionError` when the availability probe fails, otherwise
stores the model list fetched from the `/api/tags` endpoint.
`probe` and `tags` are the modelled HTTP outcomes at `base_url`. -/
def NovelGenerator.init (base_url : String) (probe tags : HttpResult) :
    Except PyError NovelGenerator :=
  if check_server_availability probe then
    .ok { models := get_available_models tags }
  else
    .error (.connectionError ("Ollamaサーバー(" ++ base_url ++ ")に接続できません"))

/-- The `style_prompt` local of `NovelGenerator.generate_novel`:
`f"\n文体: {style}" if style else ""` (Python truthiness of `style`,
whose default is `None`). -/
def stylePrompt (style : Option String) : String :=
  match style with
  | some st => if st != "" then "\n文体: " ++ st else ""
  | none => ""

/-- The part of the fixed f-string template before `{description}`. -/
def promptHead : String :=
  "\n以下の説明に基づいて小説を書いてください。\nマークダウンの装飾は使用せず、純粋なテキストのみを返してください。\n\nプロット:\n"

/-- The part of the fixed f-string template after `{style_prompt}`. -/
def promptTail : String :=
  "\n\n要件:\n- 適切な段落分けを行う\n- 読みやすい文章にする\n- 物語に一貫性を持たせる\n- 登場人物の感情や心理描写を含める\n\n注意:\n- マークダウンの装飾は使用しないでください\n- テキストのみを返してください\n"

/-- The fixed f-string template of `NovelGenerator.generate_novel`,
with the description and the style directive interpolated. -/
def buildPrompt (description : String) (style : Option String) : String :=
  promptHead ++ description ++ "\n" ++ stylePrompt style ++ promptTail

/-- `NovelGenerator.generate_novel` from `src/novel_generator.py`:
validates the model selection, renders the prompt, submits it to the
client (`stream=False`), and returns the cleaned response text. -/
def NovelGenerator.generate_novel (g : NovelGenerator) (description model : String)
    (style : Option String) (client : OllamaClient) : Except PyError String :=
  if model == "" then
    .error (.valueError "モデルが選択されていません")
  else if !(pyStrMem model g.models) then
    .error (.valueError ("選択されたモデル " ++ squote ++ model ++ squote ++ " は利用できません"))
  else
    match client model (buildPrompt description style) with
    | .raise m => .error (.other m)
    | .ok response => .ok (clean_text response)

/-- The fixed output filename of `generate_and_save_novel`. -/
def temp_file : String := "generated_novel.txt"

/-- The environment one call of `generate_and_save_novel` runs in:
the modelled HTTP outcomes at the chosen base URL, the client behaviour,
and the current content of `generated_novel.txt` (`none` when absent). -/
structure World where
  probe : HttpResult
  tags : HttpResult
  client : OllamaClient
  file : Option String

/-- The body of the `try:` block of `generate_and_save_novel`, up to the
file write: build the URL, construct the generator, generate the text. -/
def tryBody (description model : String) (style ip : Option String)
    (w : World) : Except PyError String := do
  let base_url := get_server_url ip
  let generator ← NovelGenerator.init base_url w.probe w.tags
  generator.generate_novel description model style w.client

/-- `generate_and_save_novel` from `src/novel_generator.py`: on success
writes the generated text to `generated_novel.txt` (overwriting it) and
returns it with a completion status; any exception is caught and turned
into `("", "エラーが発生しました: " + str(e))`, skipping the write.
Returns the `(text, status)` pair and the file content afterwards. -/
def generate_and_save_novel (description model : String) (style ip : Option String)
    (w : World) : (String × String) × Option String :=
  match tryBody description model style ip w with
  | .ok generated_text =>
      ((generated_text, "小説の生成が完了しました！\n保存先: " ++ temp_file),
       some generated_text)
  | .error e =>
      (("", "エラーが発生しました: " ++ e.msg), w.file)

/-! ### Helper predicates used to state the claims -/

/-- Whether a JSON value is an object (a decoded dictionary). -/
def Json.isObj : Json → Bool
  | .obj _ => true
  | _ => false

/-- Whether a JSON value is an array (a decoded list). -/
def Json.isArr : Json → Bool
  | .arr _ => true
  | _ => false

/-- The `name` field an entry contributes to the model list: present
and truthy, or skipped. -/
def nameOf : Json → Option Json
  | .obj fields =>
    (match Json.get fields "name" with
     | some v => if v.truthy then some v else none
     | none => none)
  | _ => none

/-- Whether a generation outcome is a raised validation error. -/
def isValidationError : Except PyError String → Bool
  | .error (.valueError _) => true
  | _ => false

/-- Whether an exception is a `ValueError`. -/
def PyError.isValueError : PyError → Bool
  | .valueError _ => true
  | _ => false

/-- Whether an exception is a `ConnectionError`. -/
def PyError.isConnectionError : PyError → Bool
  | .connectionError _ => true
  | _ => false

/-! ### Lemmas about the model lister -/

theorem extractNames_all_obj (entries : List Json) (h : entries.all Json.isObj = true) :
    extractNames entries = .ok (entries.filterMap nameOf) := by
  induction entries with
  | nil => rfl
  | cons e rest ih =>
    simp only [List.all_cons, Bool.and_eq_true] at h
    obtain ⟨he, hrest⟩ := h
    cases e with
    | obj fields =>
      simp only [extractNames, ih hrest, List.filterMap_cons, nameOf]
      cases Json.get fields "name" with
      | none => rfl
      | some v =>
        by_cases hv : v.truthy
        · simp [hv, Except.bind]
        · simp [hv, Except.bind]
    | null => simp [Json.isObj] at he
    | bool b => simp [Json.isObj] at he
    | num n => simp [Json.isObj] at he
    | str s => simp [Json.isObj] at he
    | arr l => simp [Json.isObj] at he

theorem extractNames_not_all_obj (entries : List Json)
    (h : entries.all Json.isObj = false) :
    ∃ msg, extractNames entries = .error msg := by
  induction entries with
  | nil => simp at h
  | cons e rest ih =>
    cases e with
    | obj fields =>
      have hrest : rest.all Json.isObj = false := by
        simpa [Json.isObj] using h
      obtain ⟨msg, hmsg⟩ := ih hrest
      refine ⟨msg, ?_⟩
      simp [extractNames, hmsg, Bind.bind, Except.bind]
    | null => exact ⟨"AttributeError", rfl⟩
    | bool b => exact ⟨"AttributeError", rfl⟩
    | num n => exact ⟨"AttributeError", rfl⟩
    | str s => exact ⟨"AttributeError", rfl⟩
    | arr l => exact ⟨"AttributeError", rfl⟩

/-- C7: the Server Locator returns exactly `http://h:11434` for every
non-empty host `h`, and `http://localhost:11434` for an empty or absent
host; it is a total function with no failure modes. -/
theorem C7_server_locator :
    (∀ h : String, h ≠ "" → get_server_url (some h) = "http://" ++ h ++ ":11434") ∧
    get_server_url (some "") = "http://localhost:11434" ∧
    get_server_url none = "http://localhost:11434" := by
  refine ⟨fun h hne => ?_, rfl, rfl⟩
  simp [get_server_url, hne]

theorem C7_server_locator_witness :
    ("192.168.1.1" : String) ≠ "" ∧
    get_server_url (some "192.168.1.1") = "http://192.168.1.1:11434" :=
  ⟨by decide, C7_server_locator.1 "192.168.1.1" (by decide)⟩

/-- C6: the Availability Prober returns `true` exactly when the modelled
response has status 200, and `false` on every other status and on every
transport exception; being a total Lean function, it propagates nothing. -/
theorem C6_availability_prober :
    (∀ status body, check_server_availability (HttpResult.resp status body) = true ↔ status = 200) ∧
    (∀ msg, check_server_availability (HttpResult.exn msg) = false) := by
  constructor
  · intro status body
    simp [check_server_availability]
  · intro msg
    rfl

/-- C5: the Model Lister returns, on a 200 response whose JSON body is a
bare list of objects or an object wrapping such a list under `models`,
the ordered `name` fields with missing/empty (untruthy) names skipped;
on the two concrete example bodies it returns `["a","b"]`; on any
non-200 status, transport exception or parse exception it returns `[]`;
and on every unexpected shape behind a 200 response — a scalar body
(null/bool/number/string), an object without a `models` key, a `models`
key holding a non-list, or a list containing a non-object entry (bare
or wrapped) — it also returns `[]` (and, being a total Lean function,
never raises). -/
theorem C5_model_lister :
    (∀ entries : List Json, entries.all Json.isObj = true →
      get_available_models (HttpResult.resp 200 (.ok (Json.arr entries))) =
        entries.filterMap nameOf) ∧
    (∀ (fields : List (String × Json)) (entries : List Json),
      Json.get fields "models" = some (Json.arr entries) →
      entries.all Json.isObj = true →
      get_available_models (HttpResult.resp 200 (.ok (Json.obj fields))) =
        entries.filterMap nameOf) ∧
    get_available_models (HttpResult.resp 200 (.ok (Json.arr
      [Json.obj [("name", Json.str "a")], Json.obj [("name", Json.str "b")]]))) =
      [Json.str "a", Json.str "b"] ∧
    get_available_models (HttpResult.resp 200 (.ok (Json.obj
      [("models", Json.arr [Json.obj [("name", Json.str "a")],
                            Json.obj [("name", Json.str "b")]])]))) =
      [Json.str "a", Json.str "b"] ∧
    (∀ status body, status ≠ 200 → get_available_models (HttpResult.resp status body) = []) ∧
    (∀ msg, get_available_models (HttpResult.resp 200 (.error msg)) = []) ∧
    (∀ msg, get_available_models (HttpResult.exn msg) = []) ∧
    get_available_models (HttpResult.resp 200 (.ok Json.null)) = [] ∧
    (∀ b, get_available_models (HttpResult.resp 200 (.ok (Json.bool b))) = []) ∧
    (∀ n, get_available_models (HttpResult.resp 200 (.ok (Json.num n))) = []) ∧
    (∀ s, get_available_models (HttpResult.resp 200 (.ok (Json.str s))) = []) ∧
    (∀ fields : List (String × Json), Json.get fields "models" = none →
      get_available_models (HttpResult.resp 200 (.ok (Json.obj fields))) = []) ∧
    (∀ (fields : List (String × Json)) (v : Json),
      Json.get fields "models" = some v → v.isArr = false →
      get_available_models (HttpResult.resp 200 (.ok (Json.obj fields))) = []) ∧
    (∀ entries : List Json, entries.all Json.isObj = false →
      get_available_models (HttpResult.resp 200 (.ok (Json.arr entries))) = []) ∧
    (∀ (fields : List (String × Json)) (entries : List Json),
      Json.get fields "models" = some (Json.arr entries) →
      entries.all Json.isObj = false →
      get_available_models (HttpResult.resp 200 (.ok (Json.obj fields))) = []) := by
  refine ⟨?_, ?_, rfl, rfl, ?_, fun msg => rfl, fun msg => rfl, rfl, fun b => rfl,
    fun n => rfl, fun s => rfl, ?_, ?_, ?_, ?_⟩
  · intro entries h
    simp [get_available_models, extractNames_all_obj entries h]
  · intro fields entries hget hall
    simp [get_available_models, hget, extractNames_all_obj entries hall]
  · intro status body h
    simp [get_available_models, h]
  · intro fields h
    simp [get_available_models, h]
  · intro fields v hget hv
    cases v with
    | arr l => simp [Json.isArr] at hv
    | null => simp [get_available_models, hget]
    | bool b => simp [get_available_models, hget]
    | num n => simp [get_available_models, hget]
    | str s => simp [get_available_models, hget]
    | obj l => simp [get_available_models, hget]
  · intro entries h
    obtain ⟨msg, hmsg⟩ := extractNames_not_all_obj entries h
    simp [get_available_models, hmsg]
  · intro fields entries hget h
    obtain ⟨msg, hmsg⟩ := extractNames_not_all_obj entries h
    simp [get_available_models, hget, hmsg]

theorem C5_model_lister_witness :
    get_available_models (HttpResult.resp 200 (.ok (Json.arr
      [Json.obj [("name", Json.str "model1")], Json.obj [],
       Json.obj [("name", Json.str "")]]))) = [Json.str "model1"] ∧
    get_available_models (HttpResult.resp 200 (.ok (Json.arr
      [Json.obj [("name", Json.str "model1")], Json.str "oops"]))) = [] := by
  constructor
  · exact (C5_model_lister.1
      [Json.obj [("name", Json.str "model1")], Json.obj [], Json.obj [("name", Json.str "")]]
      (by rfl)).trans (by rfl)
  · exact C5_model_lister.2.2.2.2.2.2.2.2.2.2.2.2.2.1
      [Json.obj [("name", Json.str "model1")], Json.str "oops"] (by rfl)

/-- C3: for every description and style, an empty or unlisted model
makes `generate_novel` raise a `ValueError` whose outcome is the same
for every client behaviour (so the server is never consulted), while a
non-empty listed model never produces a validation error. -/
theorem C3_validation_before_client :
    ∀ (g : NovelGenerator) (description model : String) (style : Option String)
      (c₁ c₂ : OllamaClient),
      ((model = "" ∨ pyStrMem model g.models = false) →
        (g.generate_novel description model style c₁ =
           g.generate_novel description model style c₂ ∧
         isValidationError (g.generate_novel description model style c₁) = true)) ∧
      (model ≠ "" → pyStrMem model g.models = true →
        isValidationError (g.generate_novel description model style c₁) = false) := by
  intro g description model style c₁ c₂
  constructor
  · intro h
    by_cases hm : model = ""
    · subst hm
      exact ⟨rfl, rfl⟩
    · have hc : pyStrMem model g.models = false := h.resolve_left hm
      refine ⟨?_, ?_⟩
      · simp [NovelGenerator.generate_novel, hm, hc]
      · simp [NovelGenerator.generate_novel, hm, hc, isValidationError]
  · intro hm hc
    cases hcl : c₁ model (buildPrompt description style) with
    | ok r => simp [NovelGenerator.generate_novel, hm, hc, hcl, isValidationError]
    | raise m => simp [NovelGenerator.generate_novel, hm, hc, hcl, isValidationError]

theorem C3_validation_before_client_witness :
    ((NovelGenerator.mk [Json.str "m1", Json.str "m2"]).generate_novel "d" "m3" none
        (fun _ _ => ClientOutcome.ok "x") =
      (NovelGenerator.mk [Json.str "m1", Json.str "m2"]).generate_novel "d" "m3" none
        (fun _ _ => ClientOutcome.raise "boom") ∧
     isValidationError ((NovelGenerator.mk [Json.str "m1", Json.str "m2"]).generate_novel
        "d" "m3" none (fun _ _ => ClientOutcome.ok "x")) = true) ∧
    isValidationError ((NovelGenerator.mk [Json.str "m1", Json.str "m2"]).generate_novel
        "d" "m1" none (fun _ _ => ClientOutcome.ok "x")) = false :=
  ⟨(C3_validation_before_client (NovelGenerator.mk [Json.str "m1", Json.str "m2"])
      "d" "m3" none (fun _ _ => ClientOutcome.ok "x") (fun _ _ => ClientOutcome.raise "boom")).1
      (Or.inr (by rfl)),
   (C3_validation_before_client (NovelGenerator.mk [Json.str "m1", Json.str "m2"])
      "d" "m1" none (fun _ _ => ClientOutcome.ok "x") (fun _ _ => ClientOutcome.ok "x")).2
      (by decide) (by rfl)⟩

/-- C8: the Prompt Builder renders the fixed template around the
description (which therefore occurs verbatim as a substring), appends
the style directive line exactly when the style is non-empty, and is
deterministic in its two inputs. -/
theorem C8_prompt_builder :
    (∀ (description : String) (style : Option String),
      buildPrompt description style =
        promptHead ++ description ++ "\n" ++ stylePrompt style ++ promptTail ∧
      description.data <:+: (buildPrompt description style).data) ∧
    stylePrompt none = "" ∧
    stylePrompt (some "") = "" ∧
    (∀ st : String, st ≠ "" → stylePrompt (some st) = "\n文体: " ++ st) ∧
    (∀ (d₁ d₂ : String) (s₁ s₂ : Option String), d₁ = d₂ → s₁ = s₂ →
      buildPrompt d₁ s₁ = buildPrompt d₂ s₂) := by
  refine ⟨fun description style => ⟨rfl, ?_⟩, rfl, rfl, fun st h => ?_,
    fun d₁ d₂ s₁ s₂ hd hs => by rw [hd, hs]⟩
  · refine ⟨promptHead.data, ("\n" ++ stylePrompt style ++ promptTail).data, ?_⟩
    simp [buildPrompt]
  · simp [stylePrompt, h]

theorem C8_prompt_builder_witness :
    (buildPrompt "Test plot" (some "Test style") =
      promptHead ++ "Test plot" ++ "\n" ++ stylePrompt (some "Test style") ++ promptTail ∧
     ("Test plot" : String).data <:+: (buildPrompt "Test plot" (some "Test style")).data) ∧
    stylePrompt (some "Test style") = "\n文体: " ++ "Test style" ∧
    buildPrompt "Test plot" (some "Test style") = buildPrompt "Test plot" (some "Test style") :=
  ⟨C8_prompt_builder.1 "Test plot" (some "Test style"),
   C8_prompt_builder.2.2.2.1 "Test style" (by decide),
   C8_prompt_builder.2.2.2.2 "Test plot" "Test plot" (some "Test style") (some "Test style")
     rfl rfl⟩

/-- C9: an unreachable server makes construction fail with a
`ConnectionError` whose message contains the attempted address (the
generator, and hence any generation attempt, never comes into being),
while an empty or unlisted model makes generation fail with a
`ValueError` — a different constructor of the error type — whose
message contains the offending model name. -/
theorem C9_error_kinds :
    (∀ (base_url : String) (probe tags : HttpResult),
      check_server_availability probe = false →
        NovelGenerator.init base_url probe tags =
          .error (.connectionError ("Ollamaサーバー(" ++ base_url ++ ")に接続できません")) ∧
        base_url.data <:+: ("Ollamaサーバー(" ++ base_url ++ ")に接続できません").data) ∧
    (∀ (g : NovelGenerator) (description model : String) (style : Option String)
       (client : OllamaClient),
      pyStrMem model g.models = false →
        g.generate_novel description model style client = .error (.valueError
          (if model = "" then "モデルが選択されていません"
           else "選択されたモデル " ++ squote ++ model ++ squote ++ " は利用できません")) ∧
        (model ≠ "" → model.data <:+:
          ("選択されたモデル " ++ squote ++ model ++ squote ++ " は利用できません").data)) ∧
    (∀ m : String,
      (PyError.connectionError m).isValueError = false ∧
      (PyError.valueError m).isValueError = true ∧
      (PyError.valueError m).isConnectionError = false ∧
      (PyError.connectionError m).isConnectionError = true) := by
  refine ⟨fun base_url probe tags h => ⟨?_, ?_⟩,
    fun g description model style client hc => ⟨?_, fun hm => ?_⟩,
    fun m => ⟨rfl, rfl, rfl, rfl⟩⟩
  · simp [NovelGenerator.init, h]
  · exact ⟨("Ollamaサーバー(" : String).data, (")に接続できません" : String).data, by simp⟩
  · by_cases hm : model = ""
    · subst hm; rfl
    · simp [NovelGenerator.generate_novel, hm, hc]
  · exact ⟨("選択されたモデル " ++ squote).data, (squote ++ " は利用できません").data, by simp⟩

theorem C9_error_kinds_witness :
    (NovelGenerator.init "http://localhost:11434" (HttpResult.exn "timeout")
        (HttpResult.exn "timeout") =
      .error (.connectionError
        ("Ollamaサーバー(" ++ "http://localhost:11434" ++ ")に接続できません")) ∧
     ("http://localhost:11434" : String).data <:+:
       ("Ollamaサーバー(" ++ "http://localhost:11434" ++ ")に接続できません").data) ∧
    ((NovelGenerator.mk [Json.str "m1"]).generate_novel "d" "m2" none
        (fun _ _ => ClientOutcome.ok "x") = .error (.valueError
          (if "m2" = "" then "モデルが選択されていません"
           else "選択されたモデル " ++ squote ++ "m2" ++ squote ++ " は利用できません")) ∧
     (("m2" : String) ≠ "" → ("m2" : String).data <:+:
        ("選択されたモデル " ++ squote ++ "m2" ++ squote ++ " は利用できません").data)) :=
  ⟨C9_error_kinds.1 "http://localhost:11434" (HttpResult.exn "timeout")
      (HttpResult.exn "timeout") (by rfl),
   C9_error_kinds.2.1 (NovelGenerator.mk [Json.str "m1"]) "d" "m2" none
      (fun _ _ => ClientOutcome.ok "x") (by rfl)⟩

/-- C2: when the underlying client raises during generation, the caught
exception makes `generate_and_save_novel` return the pair
`("", error message containing the exception text)` and leave the
output file untouched (no write occurs on that path). -/
theorem C2_error_empty_result_no_write :
    ∀ (description model : String) (style ip : Option String) (w : World) (m : String),
      check_server_availability w.probe = true →
      model ≠ "" →
      pyStrMem model (get_available_models w.tags) = true →
      w.client model (buildPrompt description style) = .raise m →
      generate_and_save_novel description model style ip w =
        (("", "エラーが発生しました: " ++ m), w.file) ∧
      m.data <:+: ("エラーが発生しました: " ++ m).data := by
  intro description model style ip w m hp hm hc hcl
  constructor
  · simp [generate_and_save_novel, tryBody, NovelGenerator.init, hp,
      NovelGenerator.generate_novel, hm, hc, hcl, Bind.bind, Except.bind, PyError.msg]
  · exact ⟨("エラーが発生しました: " : String).data, [], by simp⟩

theorem C2_error_empty_result_no_write_witness :
    generate_and_save_novel "Test plot" "model1" none none
      { probe := HttpResult.resp 200 (.ok Json.null),
        tags := HttpResult.resp 200 (.ok (Json.arr [Json.obj [("name", Json.str "model1")]])),
        client := fun _ _ => ClientOutcome.raise "Test error",
        file := some "previous content" } =
      (("", "エラーが発生しました: " ++ "Test error"), some "previous content") ∧
    ("Test error" : String).data <:+: ("エラーが発生しました: " ++ "Test error").data :=
  C2_error_empty_result_no_write "Test plot" "model1" none none
    { probe := HttpResult.resp 200 (.ok Json.null),
      tags := HttpResult.resp 200 (.ok (Json.arr [Json.obj [("name", Json.str "model1")]])),
      client := fun _ _ => ClientOutcome.raise "Test error",
      file := some "previous content" }
    "Test error" (by rfl) (by decide) (by rfl) (by rfl)

/-- C4: when the try-block completes without error, the generated text
is written to the fixed filename (overwriting whatever content the file
held before), the file afterwards holds exactly that text, and the
returned status is a completion message containing the output path. -/
theorem C4_success_persists_exact_text :
    ∀ (description model : String) (style ip : Option String) (w : World) (text : String),
      tryBody description model style ip w = .ok text →
      generate_and_save_novel description model style ip w =
        ((text, "小説の生成が完了しました！\n保存先: " ++ temp_file), some text) ∧
      temp_file.data <:+: ("小説の生成が完了しました！\n保存先: " ++ temp_file).data := by
  intro description model style ip w text h
  constructor
  · simp [generate_and_save_novel, h]
  · exact ⟨("小説の生成が完了しました！\n保存先: " : String).data, [], by simp⟩

theorem C4_success_persists_exact_text_witness :
    generate_and_save_novel "Test plot" "model1" none none
      { probe := HttpResult.resp 200 (.ok Json.null),
        tags := HttpResult.resp 200 (.ok (Json.arr [Json.obj [("name", Json.str "model1")]])),
        client := fun _ _ => ClientOutcome.ok "A hero story.",
        file := some "previous content" } =
      (("A hero story.", "小説の生成が完了しました！\n保存先: " ++ temp_file),
        some "A hero story.") ∧
    temp_file.data <:+: ("小説の生成が完了しました！\n保存先: " ++ temp_file).data :=
  C4_success_persists_exact_text "Test plot" "model1" none none
    { probe := HttpResult.resp 200 (.ok Json.null),
      tags := HttpResult.resp 200 (.ok (Json.arr [Json.obj [("name", Json.str "model1")]])),
      client := fun _ _ => ClientOutcome.ok "A hero story.",
      file := some "previous content" }
    "A hero story." (by rfl)

/-- C1 (divergence witness): `generate_and_save_novel` in the source is
not a stream: for every input and environment it produces exactly one
`(text, status)` pair — its result type — and its status is never the
constant "generating" message that the repository's own tests
(`tests/test_main.py`) expect for every intermediate chunk; on the
world corresponding to the tests' three-fragment scenario it returns
only the single completed pair. -/
theorem C1_no_streaming_pairs :
    (∀ (description model : String) (style ip : Option String) (w : World),
      (((generate_and_save_novel description model style ip w).1.2 ==
        "小説を生成中...") = false)) ∧
    generate_and_save_novel "Test plot" "model1" none none
      { probe := HttpResult.resp 200 (.ok Json.null),
        tags := HttpResult.resp 200 (.ok (Json.arr [Json.obj [("name", Json.str "model1")]])),
        client := fun _ _ => ClientOutcome.ok "Part 1Part 2Part 3",
        file := none } =
      (("Part 1Part 2Part 3", "小説の生成が完了しました！\n保存先: " ++ temp_file),
        some "Part 1Part 2Part 3") := by
  constructor
  · intro description model style ip w
    cases h : tryBody description model style ip w with
    | ok text =>
      simp only [generate_and_save_novel, h]
      decide
    | error e =>
      simp only [generate_and_save_novel, h]
      rw [beq_eq_false_iff_ne]
      intro heq
      have hlen := congrArg String.length heq
      rw [String.length_append] at hlen
      have h1 : ("エラーが発生しました: " : String).length = 12 := rfl
      have h2 : ("小説を生成中..." : String).length = 9 := rfl
      omega
  · rfl

/-! ### Lemmas about line splitting, joining and stripping -/

theorem splitOnNl_nlfree (l : List Char) (h : l.all (· != '\n') = true) :
    splitOnNl l = [l] := by
  induction l with
  | nil => rfl
  | cons c t ih =>
    simp only [List.all_cons, Bool.and_eq_true, bne_iff_ne, ne_eq] at h
    simp only [splitOnNl, ih (by simpa using h.2)]
    rw [if_neg (by simpa using h.1)]

theorem splitOnNl_append_nl (l rest : List Char) (h : l.all (· != '\n') = true) :
    splitOnNl (l ++ '\n' :: rest) = l :: splitOnNl rest := by
  induction l with
  | nil => simp [splitOnNl]
  | cons c t ih =>
    simp only [List.all_cons, Bool.and_eq_true, bne_iff_ne, ne_eq] at h
    simp only [List.cons_append, splitOnNl, List.append_eq, ih (by simpa using h.2)]
    rw [if_neg (by simpa using h.1)]

theorem splitOnNl_joinNl (L : List (List Char)) (hne : L ≠ [])
    (h : ∀ l ∈ L, l.all (· != '\n') = true) : splitOnNl (joinNl L) = L := by
  induction L with
  | nil => exact absurd rfl hne
  | cons l ls ih =>
    cases ls with
    | nil => exact splitOnNl_nlfree l (h l (by simp))
    | cons l₂ ls₂ =>
      show splitOnNl (l ++ '\n' :: joinNl (l₂ :: ls₂)) = _
      rw [splitOnNl_append_nl l _ (h l (by simp)),
        ih (by simp) (fun x hx => h x (List.mem_cons_of_mem l hx))]

theorem dropWhile_eq_cons_head (p : Char → Bool) (l : List Char) (a : Char) (t : List Char)
    (h : l.dropWhile p = a :: t) : p a = false := by
  induction l with
  | nil => simp at h
  | cons x xs ih =>
    rw [List.dropWhile_cons] at h
    by_cases hx : p x = true
    · rw [if_pos hx] at h
      exact ih h
    · rw [if_neg hx] at h
      cases h
      simpa using hx

theorem pyLstrip_cons_eq (a : Char) (t : List Char) (h : isPySpace a = false) :
    pyLstrip (a :: t) = a :: t := by
  simp [pyLstrip, List.dropWhile_cons, h]

theorem pyLstrip_head_not (l : List Char) (a : Char) (t : List Char)
    (h : pyLstrip l = a :: t) : isPySpace a = false :=
  dropWhile_eq_cons_head isPySpace l a t h

theorem pyLstrip_idem (l : List Char) : pyLstrip (pyLstrip l) = pyLstrip l := by
  cases h : pyLstrip l with
  | nil => rfl
  | cons a t => rw [pyLstrip_cons_eq a t (pyLstrip_head_not l a t h)]

theorem pyRstrip_getLast_not (l : List Char) (z : Char)
    (h : (pyRstrip l).getLast? = some z) : isPySpace z = false := by
  unfold pyRstrip at h
  rw [List.getLast?_reverse] at h
  cases hd : List.dropWhile isPySpace l.reverse with
  | nil => rw [hd] at h; simp at h
  | cons a t =>
    rw [hd] at h
    simp only [List.head?_cons, Option.some.injEq] at h
    exact h ▸ dropWhile_eq_cons_head isPySpace l.reverse a t hd

theorem pyRstrip_eq_self (l : List Char) (z : Char)
    (h : l.getLast? = some z) (hz : isPySpace z = false) : pyRstrip l = l := by
  unfold pyRstrip
  have hrev : l.reverse.head? = some z := by rw [List.head?_reverse, h]
  cases hr : l.reverse with
  | nil => rw [hr] at hrev; simp at hrev
  | cons a t =>
    rw [hr] at hrev
    simp only [List.head?_cons, Option.some.injEq] at hrev
    have ha : isPySpace a = false := by rw [hrev]; exact hz
    rw [List.dropWhile_cons, if_neg (by simp [ha]), ← hr, List.reverse_reverse]

theorem pyStrip_getLast_not (l : List Char) (z : Char)
    (h : (pyStrip l).getLast? = some z) : isPySpace z = false := by
  unfold pyStrip pyLstrip at h
  have hsf : List.dropWhile isPySpace (pyRstrip l) <:+ pyRstrip l :=
    List.dropWhile_suffix isPySpace
  obtain ⟨pre, hpre⟩ := hsf
  have hne : List.dropWhile isPySpace (pyRstrip l) ≠ [] := by
    intro hnil
    rw [hnil] at h
    simp at h
  have : (pyRstrip l).getLast? = some z := by
    rw [← hpre, List.getLast?_append_of_ne_nil pre hne, h]
  exact pyRstrip_getLast_not l z this

theorem pyStrip_idem (l : List Char) : pyStrip (pyStrip l) = pyStrip l := by
  cases hS : (pyStrip l).getLast? with
  | none =>
    have : pyStrip l = [] := by
      cases h : pyStrip l with
      | nil => rfl
      | cons a t => rw [h] at hS; simp [List.getLast?_eq_getLast] at hS
    rw [this]; rfl
  | some z =>
    show pyLstrip (pyRstrip (pyStrip l)) = pyStrip l
    rw [pyRstrip_eq_self (pyStrip l) z hS (pyStrip_getLast_not l z hS)]
    exact pyLstrip_idem (pyRstrip l)

theorem mem_pyStrip (l : List Char) (c : Char) (h : c ∈ pyStrip l) : c ∈ l := by
  unfold pyStrip pyLstrip pyRstrip at h
  have h1 := (List.dropWhile_sublist isPySpace).mem h
  rw [List.mem_reverse] at h1
  have h2 := (List.dropWhile_sublist isPySpace).mem h1
  rwa [List.mem_reverse] at h2


/-- The lines contributed by the text after a line boundary: a boundary
at the very end of the text opens no further line. -/
def pySplitCont (rest : List Char) : List (List Char) :=
  match rest with
  | [] => []
  | _ :: _ => pySplitlinesAux rest []

theorem pySplitlinesAux_not_break (c : Char) (rest acc : List Char)
    (h : isLineBreak c = false) :
    pySplitlinesAux (c :: rest) acc = pySplitlinesAux rest (c :: acc) := by
  rw [pySplitlinesAux.eq_def]
  dsimp only
  rw [if_neg (by simp [h])]

theorem pySplitlinesAux_break (c : Char) (rest acc : List Char)
    (hc : isLineBreak c = true)
    (h2 : (c == '\x0d' && rest.head? == some '\n') = false) :
    pySplitlinesAux (c :: rest) acc = acc.reverse :: pySplitCont rest := by
  rw [pySplitlinesAux.eq_def]
  dsimp only
  rw [if_pos hc, if_neg (by simp [h2])]
  cases rest <;> rfl

theorem pySplitlinesAux_crlf (rest2 acc : List Char) :
    pySplitlinesAux ('\x0d' :: '\n' :: rest2) acc = acc.reverse :: pySplitCont rest2 := by
  cases rest2 <;> rfl

theorem pySplitlinesAux_ne_nil (cs acc : List Char) : pySplitlinesAux cs acc ≠ [] := by
  induction cs, acc using pySplitlinesAux.induct with
  | case1 acc => simp [pySplitlinesAux]
  | case2 c acc hc h2 =>
    have : c = '\x0d' := by
      cases h : (c == '\x0d') with
      | true => exact eq_of_beq h
      | false => rw [h] at h2; simp at h2
    subst this
    simp at h2
  | case3 c acc hc head tail h2 ih =>
    have hcd : c = '\x0d' := by
      cases h : (c == '\x0d') with
      | true => exact eq_of_beq h
      | false => rw [h] at h2; simp at h2
    have hhd : head = '\n' := by
      rw [hcd] at h2
      simp at h2
      exact h2
    subst hcd; subst hhd
    rw [pySplitlinesAux_crlf]
    simp
  | case4 c rest acc hc h2 ih =>
    rw [pySplitlinesAux_break c rest acc hc (by simpa using h2)]
    simp
  | case5 c rest acc hc ih =>
    rw [pySplitlinesAux_not_break c rest acc (by simpa using hc)]
    exact ih

theorem break_is_space (c : Char) (h : isLineBreak c = true) : isPySpace c = true := by
  simp only [isLineBreak, Bool.or_eq_true, beq_iff_eq] at h
  rcases h with ((((((((h|h)|h)|h)|h)|h)|h)|h)|h)|h <;> subst h <;> decide

theorem getLast?_cons_of_ne_nil {α : Type} (x : α) (X : List α) (h : X ≠ []) :
    (x :: X).getLast? = X.getLast? := by
  cases X with
  | nil => exact absurd rfl h
  | cons y ys => exact List.getLast?_cons_cons

theorem pySplitlinesAux_first (cs acc : List Char) :
    ∃ h t, pySplitlinesAux cs acc = (acc.reverse ++ h) :: t := by
  induction cs, acc using pySplitlinesAux.induct with
  | case1 acc => exact ⟨[], [], by simp [pySplitlinesAux]⟩
  | case2 c acc hc h2 => simp at h2
  | case3 c acc hc head tail h2 ih =>
    simp only [List.head?_cons, Bool.and_eq_true, beq_iff_eq, Option.some.injEq] at h2
    obtain ⟨hcd, hhd⟩ := h2
    subst hcd; subst hhd
    rw [pySplitlinesAux_crlf]
    exact ⟨[], pySplitCont tail, by simp⟩
  | case4 c rest acc hc h2 ih =>
    rw [pySplitlinesAux_break c rest acc hc (by simpa using h2)]
    exact ⟨[], pySplitCont rest, by simp⟩
  | case5 c rest acc hc ih =>
    rw [pySplitlinesAux_not_break c rest acc (by simpa using hc)]
    obtain ⟨h, t, ht⟩ := ih
    refine ⟨c :: h, t, ?_⟩
    rw [ht]
    simp

theorem pySplitlinesAux_last (z : Char) (hz : isLineBreak z = false) (cs acc : List Char)
    (hlast : cs.getLast? = some z) :
    ∃ m, (pySplitlinesAux cs acc).getLast? = some (m ++ [z]) := by
  induction cs, acc using pySplitlinesAux.induct with
  | case1 acc => simp at hlast
  | case2 c acc hc h2 => simp at h2
  | case3 c acc hc head tail h2 ih =>
    simp only [List.head?_cons, Bool.and_eq_true, beq_iff_eq, Option.some.injEq] at h2
    obtain ⟨hcd, hhd⟩ := h2
    subst hcd; subst hhd
    rw [pySplitlinesAux_crlf]
    cases tail with
    | nil =>
      simp only [List.getLast?_cons_cons, List.getLast?_singleton, Option.some.injEq] at hlast
      rw [← hlast] at hz
      simp [isLineBreak] at hz
    | cons a as =>
      have hlast2 : (a :: as).getLast? = some z := by
        rw [List.getLast?_cons_cons, List.getLast?_cons_cons] at hlast
        exact hlast
      obtain ⟨m, hm⟩ := ih hlast2
      refine ⟨m, ?_⟩
      have hcont : pySplitCont (a :: as) = pySplitlinesAux (a :: as) [] := rfl
      rw [hcont, getLast?_cons_of_ne_nil _ _ (pySplitlinesAux_ne_nil (a :: as) []), hm]
  | case4 c rest acc hc h2 ih =>
    rw [pySplitlinesAux_break c rest acc hc (by simpa using h2)]
    cases rest with
    | nil =>
      simp only [List.getLast?_singleton, Option.some.injEq] at hlast
      rw [← hlast] at hz
      rw [hz] at hc
      cases hc
    | cons a as =>
      have hlast2 : (a :: as).getLast? = some z := by
        rw [List.getLast?_cons_cons] at hlast
        exact hlast
      obtain ⟨m, hm⟩ := ih hlast2
      refine ⟨m, ?_⟩
      have hcont : pySplitCont (a :: as) = pySplitlinesAux (a :: as) [] := rfl
      rw [hcont, getLast?_cons_of_ne_nil _ _ (pySplitlinesAux_ne_nil (a :: as) []), hm]
  | case5 c rest acc hc ih =>
    rw [pySplitlinesAux_not_break c rest acc (by simpa using hc)]
    cases rest with
    | nil =>
      simp only [List.getLast?_singleton, Option.some.injEq] at hlast
      refine ⟨acc.reverse, ?_⟩
      show ([(c :: acc).reverse]).getLast? = some (acc.reverse ++ [z])
      rw [List.getLast?_singleton, List.reverse_cons, hlast]
    | cons a as =>
      have hlast2 : (a :: as).getLast? = some z := by
        rw [List.getLast?_cons_cons] at hlast
        exact hlast
      exact ih hlast2

theorem pySplitlinesAux_break_free (cs acc : List Char)
    (hacc : ∀ c ∈ acc, isLineBreak c = false) :
    ∀ l ∈ pySplitlinesAux cs acc, ∀ c ∈ l, isLineBreak c = false := by
  induction cs, acc using pySplitlinesAux.induct with
  | case1 acc =>
    intro l hl c hc
    simp only [pySplitlinesAux, List.mem_singleton] at hl
    subst hl
    exact hacc c (List.mem_reverse.mp hc)
  | case2 c acc hc h2 => simp at h2
  | case3 c acc hc head tail h2 ih =>
    simp only [List.head?_cons, Bool.and_eq_true, beq_iff_eq, Option.some.injEq] at h2
    obtain ⟨hcd, hhd⟩ := h2
    subst hcd; subst hhd
    rw [pySplitlinesAux_crlf]
    intro l hl x hx
    rcases List.mem_cons.mp hl with hl | hl
    · subst hl
      exact hacc x (List.mem_reverse.mp hx)
    · cases tail with
      | nil => simp [pySplitCont] at hl
      | cons a as => exact ih (by simp) l hl x hx
  | case4 c rest acc hc h2 ih =>
    rw [pySplitlinesAux_break c rest acc hc (by simpa using h2)]
    intro l hl x hx
    rcases List.mem_cons.mp hl with hl | hl
    · subst hl
      exact hacc x (List.mem_reverse.mp hx)
    · cases rest with
      | nil => simp [pySplitCont] at hl
      | cons a as => exact ih (by simp) l hl x hx
  | case5 c rest acc hc ih =>
    rw [pySplitlinesAux_not_break c rest acc (by simpa using hc)]
    refine ih ?_
    intro x hx
    rcases List.mem_cons.mp hx with hx | hx
    · subst hx
      simpa using hc
    · exact hacc x hx

theorem pySplitlines_break_free (cs : List Char) :
    ∀ l ∈ pySplitlines cs, ∀ c ∈ l, isLineBreak c = false := by
  cases cs with
  | nil => intro l hl; simp [pySplitlines] at hl
  | cons a t =>
    exact pySplitlinesAux_break_free (a :: t) [] (by simp)

theorem pySplitlines_head (a : Char) (t : List Char) (ha : isLineBreak a = false) :
    ∃ h rest, pySplitlines (a :: t) = (a :: h) :: rest := by
  show ∃ h rest, pySplitlinesAux (a :: t) [] = (a :: h) :: rest
  rw [pySplitlinesAux_not_break a t [] ha]
  obtain ⟨h, rest, hh⟩ := pySplitlinesAux_first t [a]
  exact ⟨h, rest, by rw [hh]; simp⟩

theorem pySplitlines_last (cs : List Char) (z : Char)
    (hlast : cs.getLast? = some z) (hz : isLineBreak z = false) :
    ∃ m, (pySplitlines cs).getLast? = some (m ++ [z]) := by
  cases cs with
  | nil => simp at hlast
  | cons a t => exact pySplitlinesAux_last z hz (a :: t) [] hlast

theorem joinNl_cons_cons (l l₂ : List Char) (ls : List (List Char)) :
    joinNl (l :: l₂ :: ls) = l ++ '\n' :: joinNl (l₂ :: ls) := rfl

theorem joinNl_getLast (L : List (List Char)) (lst : List Char)
    (hL : L.getLast? = some lst) (hne : lst ≠ []) :
    (joinNl L).getLast? = lst.getLast? := by
  induction L with
  | nil => simp at hL
  | cons l ls ih =>
    cases ls with
    | nil =>
      simp only [List.getLast?_singleton, Option.some.injEq] at hL
      subst hL
      rfl
    | cons l₂ ls₂ =>
      rw [List.getLast?_cons_cons] at hL
      have hjoin := ih hL
      have hw : ∃ w, lst.getLast? = some w := by
        cases hlw : lst.getLast? with
        | none => exact absurd (List.getLast?_eq_none_iff.mp hlw) hne
        | some w => exact ⟨w, rfl⟩
      obtain ⟨w, hw⟩ := hw
      have hjne : joinNl (l₂ :: ls₂) ≠ [] := by
        intro hnil
        rw [hnil] at hjoin
        rw [hw] at hjoin
        simp at hjoin
      rw [joinNl_cons_cons, List.getLast?_append_of_ne_nil l (by simp),
        getLast?_cons_of_ne_nil '\n' _ hjne, hjoin]

theorem dropWhile_append_singleton (p : Char → Bool) (x : List Char) (a : Char)
    (ha : p a = false) : ∃ y, List.dropWhile p (x ++ [a]) = y ++ [a] := by
  induction x with
  | nil =>
    refine ⟨[], ?_⟩
    simp [List.dropWhile_cons, ha]
  | cons c t ih =>
    by_cases hc : p c = true
    · obtain ⟨y, hy⟩ := ih
      refine ⟨y, ?_⟩
      rw [List.cons_append, List.dropWhile_cons, if_pos hc, hy]
    · refine ⟨c :: t, ?_⟩
      rw [List.cons_append, List.dropWhile_cons, if_neg hc]

theorem pyStrip_cons_not_space (a : Char) (h : List Char) (ha : isPySpace a = false) :
    ∃ t, pyStrip (a :: h) = a :: t := by
  obtain ⟨y, hy⟩ := dropWhile_append_singleton isPySpace h.reverse a ha
  have hr : pyRstrip (a :: h) = a :: y.reverse := by
    unfold pyRstrip
    rw [List.reverse_cons, hy, List.reverse_append, List.reverse_singleton]
    rfl
  refine ⟨y.reverse, ?_⟩
  show pyLstrip (pyRstrip (a :: h)) = a :: y.reverse
  rw [hr, pyLstrip_cons_eq a y.reverse ha]

theorem pyStrip_append_singleton (m : List Char) (z : Char) (hz : isPySpace z = false) :
    ∃ m2, pyStrip (m ++ [z]) = m2 ++ [z] := by
  have hr : pyRstrip (m ++ [z]) = m ++ [z] := by
    unfold pyRstrip
    rw [List.reverse_append, List.reverse_singleton, List.singleton_append,
      List.dropWhile_cons, if_neg (by simp [hz]), List.reverse_cons, List.reverse_reverse]
  obtain ⟨y, hy⟩ := dropWhile_append_singleton isPySpace m z hz
  refine ⟨y, ?_⟩
  show pyLstrip (pyRstrip (m ++ [z])) = y ++ [z]
  rw [hr]
  exact hy

theorem stripLines_mem_nlfree (cs : List Char) :
    ∀ l ∈ (pySplitlines (pyStrip cs)).map pyStrip, l.all (· != '\n') = true := by
  intro l hl
  obtain ⟨l₀, hl₀, hmap⟩ := List.mem_map.mp hl
  subst hmap
  rw [List.all_eq_true]
  intro c hc
  have hc₀ : c ∈ l₀ := mem_pyStrip l₀ c hc
  have hbf := pySplitlines_break_free (pyStrip cs) l₀ hl₀ c hc₀
  rw [bne_iff_ne]
  intro hcn
  subst hcn
  simp [isLineBreak] at hbf

theorem stripLines_lines_stripped (cs : List Char) :
    ∀ line ∈ splitOnNl (stripLines cs), pyStrip line = line := by
  intro line hline
  cases hL : (pySplitlines (pyStrip cs)).map pyStrip with
  | nil =>
    have hj : stripLines cs = [] := by
      unfold stripLines
      rw [hL]
      rfl
    rw [hj] at hline
    simp only [splitOnNl, List.mem_singleton] at hline
    subst hline
    rfl
  | cons l ls =>
    have hsplit : splitOnNl (stripLines cs) = l :: ls := by
      unfold stripLines
      rw [hL, splitOnNl_joinNl (l :: ls) (by simp)
        (by rw [← hL]; exact stripLines_mem_nlfree cs)]
    rw [hsplit] at hline
    have hmem : line ∈ (pySplitlines (pyStrip cs)).map pyStrip := by
      rw [hL]
      exact hline
    obtain ⟨l₀, _, hmap⟩ := List.mem_map.mp hmem
    rw [← hmap]
    exact pyStrip_idem l₀

theorem stripLines_stripped (cs : List Char) :
    pyStrip (stripLines cs) = stripLines cs := by
  cases hS : pyStrip cs with
  | nil =>
    have hj : stripLines cs = [] := by
      unfold stripLines
      rw [hS]
      rfl
    rw [hj]
    rfl
  | cons a t =>
    have ha : isPySpace a = false := pyLstrip_head_not (pyRstrip cs) a t hS
    have haB : isLineBreak a = false := by
      cases hb : isLineBreak a with
      | false => rfl
      | true =>
        have hsp := break_is_space a hb
        rw [ha] at hsp
        simp at hsp
    have hlastS : ∃ z, (pyStrip cs).getLast? = some z := by
      rw [hS]
      cases hgl : (a :: t).getLast? with
      | none => exact absurd (List.getLast?_eq_none_iff.mp hgl) (by simp)
      | some z => exact ⟨z, rfl⟩
    obtain ⟨z, hz⟩ := hlastS
    have hzs : isPySpace z = false := pyStrip_getLast_not cs z hz
    have hzB : isLineBreak z = false := by
      cases hb : isLineBreak z with
      | false => rfl
      | true =>
        have hsp := break_is_space z hb
        rw [hzs] at hsp
        simp at hsp
    obtain ⟨h1, rest1, hsplit⟩ := pySplitlines_head a t haB
    obtain ⟨m, hlastL⟩ := pySplitlines_last (pyStrip cs) z hz hzB
    have hmapLast : ((pySplitlines (pyStrip cs)).map pyStrip).getLast? =
        some (pyStrip (m ++ [z])) := by
      rw [List.getLast?_map, hlastL]
      rfl
    obtain ⟨m2, hm2⟩ := pyStrip_append_singleton m z hzs
    obtain ⟨t2, ht2⟩ := pyStrip_cons_not_space a h1 ha
    have hLcons : (pySplitlines (pyStrip cs)).map pyStrip =
        (a :: t2) :: rest1.map pyStrip := by
      rw [hS, hsplit, List.map_cons, ht2]
    have hRlast : (stripLines cs).getLast? = some z := by
      unfold stripLines
      rw [joinNl_getLast _ (pyStrip (m ++ [z])) hmapLast (by rw [hm2]; simp), hm2]
      simp
    have hRhead : ∃ w, stripLines cs = a :: w := by
      unfold stripLines
      rw [hLcons]
      cases hrm : rest1.map pyStrip with
      | nil => exact ⟨t2, rfl⟩
      | cons r rs =>
        refine ⟨t2 ++ '\n' :: joinNl (r :: rs), ?_⟩
        rw [joinNl_cons_cons]
        simp
    obtain ⟨w, hw⟩ := hRhead
    show pyLstrip (pyRstrip (stripLines cs)) = stripLines cs
    rw [pyRstrip_eq_self (stripLines cs) z hRlast hzs, hw]
    exact pyLstrip_cons_eq a w ha

/-! ### Lemmas about the code-fence branch of clean_text -/

theorem subFindAux_of_prefix (needle hs : List Char) (i : Nat)
    (h : needle.isPrefixOf hs = true) : subFindAux needle hs i = some i := by
  cases hs with
  | nil => simp [subFindAux, h]
  | cons c t => simp [subFindAux, h]

theorem subFind_fence (rest : List Char) : subFind (fence ++ rest) fence = some 0 :=
  subFindAux_of_prefix fence (fence ++ rest) 0
    (List.isPrefixOf_iff_prefix.mpr (List.prefix_append fence rest))

theorem subFindAux_newline (l₁ l₂ : List Char) (i : Nat)
    (h : l₁.all (· != '\n') = true) :
    subFindAux ['\n'] (l₁ ++ '\n' :: l₂) i = some (i + l₁.length) := by
  induction l₁ generalizing i with
  | nil =>
    show subFindAux ['\n'] ('\n' :: l₂) i = some (i + 0)
    simp [subFindAux, List.isPrefixOf]
  | cons c t ih =>
    simp only [List.all_cons, Bool.and_eq_true, bne_iff_ne, ne_eq] at h
    have hcn : (('\n' : Char) == c) = false :=
      beq_eq_false_iff_ne.mpr (Ne.symm (by simpa using h.1))
    rw [List.cons_append]
    simp only [subFindAux]
    rw [if_neg (by simp [List.isPrefixOf, hcn]), ih (i + 1) (by simpa using h.2)]
    have : i + 1 + t.length = i + (c :: t).length := by
      simp [List.length_cons]
      omega
    rw [this]

theorem subRfindAux_fence (l : List Char) (i : Nat) (best : Option Nat) :
    subRfindAux fence (l ++ fence) i best = some (i + l.length) := by
  induction l generalizing i best with
  | nil =>
    show subRfindAux fence fence i best = some (i + 0)
    simp [subRfindAux, fence, List.isPrefixOf]
  | cons c t ih =>
    rw [List.cons_append]
    simp only [subRfindAux]
    rw [ih]
    have : i + 1 + t.length = i + (c :: t).length := by
      simp [List.length_cons]
      omega
    rw [this]

theorem drop_after_newline (l₁ l₂ : List Char) :
    (l₁ ++ '\n' :: l₂).drop (l₁.length + 1) = l₂ := by
  have heq : l₁ ++ '\n' :: l₂ = (l₁ ++ ['\n']) ++ l₂ := by simp
  have hlen : l₁.length + 1 = (l₁ ++ ['\n']).length := by simp
  rw [heq, hlen, List.drop_left]

theorem cleanTextL_fence (lang inner : List Char) (hlang : lang.all (· != '\n') = true) :
    cleanTextL (fence ++ lang ++ '\n' :: inner ++ fence) = stripLines inner := by
  have hassoc : fence ++ lang ++ '\n' :: inner ++ fence =
      (fence ++ lang) ++ '\n' :: (inner ++ fence) := by simp
  have hall : (fence ++ lang).all (· != '\n') = true := by
    rw [List.all_append]
    simp only [Bool.and_eq_true]
    exact ⟨by decide, hlang⟩
  have hfind : subFind (fence ++ lang ++ '\n' :: inner ++ fence) fence = some 0 := by
    have : fence ++ lang ++ '\n' :: inner ++ fence =
        fence ++ (lang ++ '\n' :: inner ++ fence) := by simp
    rw [this]
    exact subFind_fence _
  have hnl : subFind (fence ++ lang ++ '\n' :: inner ++ fence) ['\n'] =
      some ((fence ++ lang).length) := by
    rw [hassoc]
    have := subFindAux_newline (fence ++ lang) (inner ++ fence) 0 hall
    simpa [subFind] using this
  have hfrom : subFindFrom (fence ++ lang ++ '\n' :: inner ++ fence) ['\n'] 0 =
      some ((fence ++ lang).length) := by
    unfold subFindFrom
    rw [List.drop_zero, hnl]
    simp
  have hdrop : (fence ++ lang ++ '\n' :: inner ++ fence).drop ((fence ++ lang).length + 1) =
      inner ++ fence := by
    rw [hassoc, drop_after_newline]
  have hrfind : subRfind (inner ++ fence) fence = some inner.length := by
    have := subRfindAux_fence inner 0 none
    simpa [subRfind] using this
  unfold cleanTextL
  rw [hfind]
  dsimp only
  rw [hfrom]
  dsimp only
  rw [hdrop, hrfind]
  dsimp only
  rw [List.take_left]

/-- C10: the generation operation returns `clean_text` of the raw model
response, not the raw response itself; `clean_text` removes a code-fence
wrapper (everything up to the first newline after the first marker and
everything from the last marker on), and its result has every line
stripped of leading/trailing whitespace and no leading or trailing
whitespace overall, while interior blank lines between paragraphs are
preserved (witnessed by the repository's own test case). -/
theorem C10_clean_text_applied :
    (∀ (g : NovelGenerator) (description model : String) (style : Option String)
       (client : OllamaClient) (r : String),
      model ≠ "" → pyStrMem model g.models = true →
      client model (buildPrompt description style) = .ok r →
      g.generate_novel description model style client = .ok (clean_text r)) ∧
    (∀ lang inner : List Char, lang.all (· != '\n') = true →
      cleanTextL (fence ++ lang ++ '\n' :: inner ++ fence) = stripLines inner) ∧
    (∀ s : String, ∀ line ∈ splitOnNl (clean_text s).data, pyStrip line = line) ∧
    (∀ s : String, pyStrip (clean_text s).data = (clean_text s).data) ∧
    clean_text "line1\n\n  line2  \nline3" = "line1\n\nline2\nline3" := by
  refine ⟨?_, cleanTextL_fence, ?_, ?_, rfl⟩
  · intro g description model style client r hm hc hcl
    simp [NovelGenerator.generate_novel, hm, hc, hcl]
  · intro s line hline
    obtain ⟨t, ht⟩ : ∃ t, cleanTextL s.data = stripLines t := ⟨_, rfl⟩
    have hdata : (clean_text s).data = cleanTextL s.data := rfl
    rw [hdata, ht] at hline
    exact stripLines_lines_stripped t line hline
  · intro s
    obtain ⟨t, ht⟩ : ∃ t, cleanTextL s.data = stripLines t := ⟨_, rfl⟩
    show pyStrip (cleanTextL s.data) = cleanTextL s.data
    rw [ht]
    exact stripLines_stripped t

theorem C10_clean_text_applied_witness :
    (NovelGenerator.mk [Json.str "m1"]).generate_novel "d" "m1" none
        (fun _ _ => ClientOutcome.ok "  raw text ") = .ok (clean_text "  raw text ") ∧
    cleanTextL (fence ++ "py".data ++ '\n' :: "hello\n".data ++ fence) =
      stripLines "hello\n".data ∧
    clean_text "line1\n\n  line2  \nline3" = "line1\n\nline2\nline3" :=
  ⟨C10_clean_text_applied.1 (NovelGenerator.mk [Json.str "m1"]) "d" "m1" none
      (fun _ _ => ClientOutcome.ok "  raw text ") "  raw text " (by decide) (by rfl) rfl,
   C10_clean_text_applied.2.1 "py".data "hello\n".data (by decide),
   C10_clean_text_applied.2.2.2.2⟩
